import Mathlib

/-!
Verification of the portfolio-construction core of the repository
(`portfolio_optimization.py` and `Monte_Carlo_simulation.py`).

Prices, returns, weights and covariances are embedded as rational numbers
(`ℚ`); the volatility and Sharpe layer, which applies `np.sqrt`, lives in `ℝ`.
A pandas/NumPy missing value (NaN) is embedded as `none : Option ℚ`.
The Monte Carlo random stream (`np.random.random(num_stocks)` at each draw) is
embedded as an explicit function `raw : ℕ → List ℚ` giving the raw draw of each
iteration, so that properties quantify over every possible stream.
-/

namespace PortfolioOpt

/-- Elementwise product-sum `np.sum(xs * ys)` of two aligned vectors. -/
def dotQ (xs ys : List ℚ) : ℚ := (List.zipWith (fun a b => a * b) xs ys).sum

/-- Matrix-vector product `np.dot(cov_matrix, weights)`: one dot product per row. -/
def matVec (cov : List (List ℚ)) (w : List ℚ) : List ℚ := cov.map (fun row => dotQ row w)

/-- Quadratic form `np.dot(weights.T, np.dot(cov_matrix, weights))`
(`portfolio_optimization.py` line 70, `Monte_Carlo_simulation.py` line 61). -/
def quadForm (cov : List (List ℚ)) (w : List ℚ) : ℚ := dotQ w (matVec cov w)

/-- The normalization `weights /= np.sum(weights)`
(`portfolio_optimization.py` line 64, `Monte_Carlo_simulation.py` line 55). -/
def normalizeWeights (raw : List ℚ) : List ℚ := raw.map (fun x => x / raw.sum)

/-- Annualized portfolio return `np.sum(mean_daily_returns * weights) * 252`
(`portfolio_optimization.py` line 67, `Monte_Carlo_simulation.py` line 58). -/
def portfolioReturnQ (mean w : List ℚ) : ℚ := dotQ mean w * 252

/-- Annualized volatility
`np.sqrt(np.dot(weights.T, np.dot(cov_matrix, weights))) * np.sqrt(252)`
(`portfolio_optimization.py` line 70, `Monte_Carlo_simulation.py` line 61). -/
noncomputable def portfolioStdDev (cov : List (List ℚ)) (w : List ℚ) : ℝ :=
  Real.sqrt ((quadForm cov w : ℚ) : ℝ) * Real.sqrt 252

/-- Sharpe value computed by `simulate_portfolios`
(`portfolio_optimization.py` line 73): `(portfolio_return - risk_free_rate) / portfolio_std_dev`.
A zero volatility makes the IEEE float division produce a non-finite value
(inf or NaN) with no exception raised; that sentinel is embedded as `none`. -/
noncomputable def sharpeWithRfr (ret rfr vol : ℝ) : Option ℝ :=
  if vol = 0 then none else some ((ret - rfr) / vol)

/-- Sharpe value computed by the standalone script
(`Monte_Carlo_simulation.py` line 66): `results[0, i] / results[1, i]`, with no
risk-free adjustment. Zero volatility gives the same non-finite sentinel. -/
noncomputable def sharpeNoRfr (ret vol : ℝ) : Option ℝ :=
  if vol = 0 then none else some (ret / vol)

/-- One evaluated Monte Carlo draw: the column `results[:, i]`
(three metrics followed by the weight vector). -/
structure MCSample where
  ret : ℝ
  vol : ℝ
  sharpe : Option ℝ
  weights : List ℚ

/-- One iteration of the loop in `simulate_portfolios`
(`portfolio_optimization.py` lines 62-79), applied to the raw random vector
drawn at that iteration. -/
noncomputable def mcDraw (mean : List ℚ) (cov : List (List ℚ)) (rfr : ℚ) (raw : List ℚ) :
    MCSample :=
  let w := normalizeWeights raw
  let ret : ℝ := ((portfolioReturnQ mean w : ℚ) : ℝ)
  let vol : ℝ := portfolioStdDev cov w
  { ret := ret, vol := vol, sharpe := sharpeWithRfr ret ((rfr : ℚ) : ℝ) vol, weights := w }

/-- `simulate_portfolios(returns, mean_daily_returns, cov_matrix, num_portfolios,
risk_free_rate)` (`portfolio_optimization.py` lines 43-81): the results table,
one `MCSample` per column, in draw order. The default arguments are
`num_portfolios=25000` and `risk_free_rate=0.02`. -/
noncomputable def simulate_portfolios (mean : List ℚ) (cov : List (List ℚ)) (rfr : ℚ)
    (raw : ℕ → List ℚ) (K : ℕ) : List MCSample :=
  (List.range K).map (fun i => mcDraw mean cov rfr (raw i))

/-- One iteration of the module-level loop of `Monte_Carlo_simulation.py`
(lines 50-69): identical to `mcDraw` except that line 66 divides the return by
the volatility without subtracting any risk-free rate. -/
noncomputable def mcScriptDraw (mean : List ℚ) (cov : List (List ℚ)) (raw : List ℚ) :
    MCSample :=
  let w := normalizeWeights raw
  let ret : ℝ := ((portfolioReturnQ mean w : ℚ) : ℝ)
  let vol : ℝ := portfolioStdDev cov w
  { ret := ret, vol := vol, sharpe := sharpeNoRfr ret vol, weights := w }

/-- The whole module-level simulation loop of `Monte_Carlo_simulation.py`
(lines 50-69). -/
noncomputable def mcScriptRun (mean : List ℚ) (cov : List (List ℚ))
    (raw : ℕ → List ℚ) (K : ℕ) : List MCSample :=
  (List.range K).map (fun i => mcScriptDraw mean cov (raw i))

lemma sum_map_div (l : List ℚ) (c : ℚ) : (l.map (fun x => x / c)).sum = l.sum / c := by
  induction l with
  | nil => simp
  | cons a t ih => simp [ih, add_div]

lemma normalizeWeights_sum (raw : List ℚ) (h : raw.sum ≠ 0) :
    (normalizeWeights raw).sum = 1 := by
  simp [normalizeWeights, sum_map_div, div_self h]

lemma normalizeWeights_length (raw : List ℚ) :
    (normalizeWeights raw).length = raw.length := by
  simp [normalizeWeights]

lemma simulate_portfolios_get (mean : List ℚ) (cov : List (List ℚ)) (rfr : ℚ)
    (raw : ℕ → List ℚ) (K i : ℕ) (hi : i < K) :
    (simulate_portfolios mean cov rfr raw K).get? i = some (mcDraw mean cov rfr (raw i)) := by
  simp [simulate_portfolios, List.getElem?_map, List.getElem?_range, hi]

lemma mcScriptRun_get (mean : List ℚ) (cov : List (List ℚ))
    (raw : ℕ → List ℚ) (K i : ℕ) (hi : i < K) :
    (mcScriptRun mean cov raw K).get? i = some (mcScriptDraw mean cov (raw i)) := by
  simp [mcScriptRun, List.getElem?_map, List.getElem?_range, hi]

lemma mcDraw_weights (mean : List ℚ) (cov : List (List ℚ)) (rfr : ℚ) (raw : List ℚ) :
    (mcDraw mean cov rfr raw).weights = normalizeWeights raw := rfl

/-- C2: for every draw of the Monte Carlo simulation, the stored weight vector is
the raw non-negative random vector of length equal to the asset count,
normalized so that its components sum to 1; this holds for every sample of
every produced table. -/
theorem C2_weights_normalized (mean : List ℚ) (cov : List (List ℚ)) (rfr : ℚ)
    (raw : ℕ → List ℚ) (K i : ℕ) (hi : i < K)
    (hlen : (raw i).length = mean.length)
    (hnn : ∀ x ∈ raw i, 0 ≤ x) (hpos : 0 < (raw i).sum) :
    ∃ s, (simulate_portfolios mean cov rfr raw K).get? i = some s ∧
      s.weights = normalizeWeights (raw i) ∧ s.weights.sum = 1 ∧
      (∀ x ∈ s.weights, 0 ≤ x) ∧ s.weights.length = mean.length := by
  refine ⟨mcDraw mean cov rfr (raw i), simulate_portfolios_get mean cov rfr raw K i hi,
    mcDraw_weights mean cov rfr (raw i), ?_, ?_, ?_⟩
  · rw [mcDraw_weights]
    exact normalizeWeights_sum (raw i) (ne_of_gt hpos)
  · rw [mcDraw_weights]
    intro x hx
    rcases List.mem_map.mp hx with ⟨a, ha, rfl⟩
    exact div_nonneg (hnn a ha) (le_of_lt hpos)
  · rw [mcDraw_weights, normalizeWeights_length, hlen]

theorem C2_weights_normalized_witness :
    ∃ s, (simulate_portfolios [0, 0] [[0, 0], [0, 0]] (1/50)
        (fun _ => [1/2, 1/2]) 1).get? 0 = some s ∧
      s.weights = normalizeWeights [1/2, 1/2] ∧ s.weights.sum = 1 ∧
      (∀ x ∈ s.weights, 0 ≤ x) ∧ s.weights.length = 2 := by
  have h := C2_weights_normalized [0, 0] [[0, 0], [0, 0]] (1/50)
    (fun _ => [1/2, 1/2]) 1 0 (by norm_num) (by norm_num) (by norm_num) (by norm_num)
  simpa using h

/-- C9: the Monte Carlo simulation is a deterministic function of the random
stream: two runs whose raw draws agree on every index below K produce
identical sample tables (same draws in the same order, hence the same return,
volatility and Sharpe values for every sample). -/
theorem C9_determinism (mean : List ℚ) (cov : List (List ℚ)) (rfr : ℚ)
    (raw1 raw2 : ℕ → List ℚ) (K : ℕ)
    (h : ∀ i, i < K → raw1 i = raw2 i) :
    simulate_portfolios mean cov rfr raw1 K = simulate_portfolios mean cov rfr raw2 K := by
  unfold simulate_portfolios
  apply List.map_congr_left
  intro i hi
  rw [h i (List.mem_range.mp hi)]

theorem C9_determinism_witness :
    simulate_portfolios [1] [[1]] (1/50) (fun i => [(1 : ℚ) + i]) 2 =
      simulate_portfolios [1] [[1]] (1/50)
        (fun i => if i < 2 then [(1 : ℚ) + i] else []) 2 :=
  C9_determinism [1] [[1]] (1/50) _ _ 2 (fun i hi => by rw [if_pos hi])

/-- C10: `simulate_portfolios` is total over its public inputs: for every sample
count K and matching-dimension inputs it produces a table of exactly K samples,
each carrying one weight per asset; K = 0 yields the empty table, and a zero
covariance matrix is accepted like any other (the witness instantiates one). -/
theorem C10_total_shape (mean : List ℚ) (cov : List (List ℚ)) (rfr : ℚ)
    (raw : ℕ → List ℚ) (K : ℕ)
    (hlen : ∀ i, (raw i).length = mean.length) :
    (simulate_portfolios mean cov rfr raw K).length = K ∧
    (∀ s ∈ simulate_portfolios mean cov rfr raw K, s.weights.length = mean.length) ∧
    simulate_portfolios mean cov rfr raw 0 = [] := by
  refine ⟨by simp [simulate_portfolios], ?_, by simp [simulate_portfolios]⟩
  intro s hs
  rcases List.mem_map.mp hs with ⟨i, _, rfl⟩
  rw [mcDraw_weights, normalizeWeights_length, hlen i]

theorem C10_total_shape_witness :
    (simulate_portfolios [0, 0] [[0, 0], [0, 0]] (1/50) (fun _ => [1, 1]) 2).length = 2 ∧
    (∀ s ∈ simulate_portfolios [0, 0] [[0, 0], [0, 0]] (1/50) (fun _ => [1, 1]) 2,
      s.weights.length = 2) ∧
    simulate_portfolios [0, 0] [[0, 0], [0, 0]] (1/50) (fun _ => [1, 1]) 0 = [] := by
  have h := C10_total_shape [0, 0] [[0, 0], [0, 0]] (1/50) (fun _ => [1, 1]) 2
    (fun _ => rfl)
  simpa using h

lemma mcDraw_ret (mean : List ℚ) (cov : List (List ℚ)) (rfr : ℚ) (raw : List ℚ) :
    (mcDraw mean cov rfr raw).ret = ((portfolioReturnQ mean (normalizeWeights raw) : ℚ) : ℝ) :=
  rfl

lemma mcDraw_vol (mean : List ℚ) (cov : List (List ℚ)) (rfr : ℚ) (raw : List ℚ) :
    (mcDraw mean cov rfr raw).vol = portfolioStdDev cov (normalizeWeights raw) := rfl

lemma mcDraw_sharpe (mean : List ℚ) (cov : List (List ℚ)) (rfr : ℚ) (raw : List ℚ) :
    (mcDraw mean cov rfr raw).sharpe =
      sharpeWithRfr ((portfolioReturnQ mean (normalizeWeights raw) : ℚ) : ℝ) ((rfr : ℚ) : ℝ)
        (portfolioStdDev cov (normalizeWeights raw)) := rfl

lemma mcScriptDraw_ret (mean : List ℚ) (cov : List (List ℚ)) (raw : List ℚ) :
    (mcScriptDraw mean cov raw).ret = ((portfolioReturnQ mean (normalizeWeights raw) : ℚ) : ℝ) :=
  rfl

lemma mcScriptDraw_vol (mean : List ℚ) (cov : List (List ℚ)) (raw : List ℚ) :
    (mcScriptDraw mean cov raw).vol = portfolioStdDev cov (normalizeWeights raw) := rfl

lemma mcScriptDraw_sharpe (mean : List ℚ) (cov : List (List ℚ)) (raw : List ℚ) :
    (mcScriptDraw mean cov raw).sharpe =
      sharpeNoRfr ((portfolioReturnQ mean (normalizeWeights raw) : ℚ) : ℝ)
        (portfolioStdDev cov (normalizeWeights raw)) := rfl

lemma mcDraw_sharpe_of_vol_ne (mean : List ℚ) (cov : List (List ℚ)) (rfr : ℚ) (raw : List ℚ)
    (h : (mcDraw mean cov rfr raw).vol ≠ 0) :
    (mcDraw mean cov rfr raw).sharpe =
      some (((mcDraw mean cov rfr raw).ret - ((rfr : ℚ) : ℝ)) / (mcDraw mean cov rfr raw).vol) := by
  rw [mcDraw_sharpe]
  simp only [sharpeWithRfr]
  rw [if_neg (by rw [mcDraw_vol] at h; exact h)]
  rfl

lemma mcScriptDraw_sharpe_of_vol_ne (mean : List ℚ) (cov : List (List ℚ)) (raw : List ℚ)
    (h : (mcScriptDraw mean cov raw).vol ≠ 0) :
    (mcScriptDraw mean cov raw).sharpe =
      some ((mcScriptDraw mean cov raw).ret / (mcScriptDraw mean cov raw).vol) := by
  rw [mcScriptDraw_sharpe]
  simp only [sharpeNoRfr]
  rw [if_neg (by rw [mcScriptDraw_vol] at h; exact h)]
  rfl

/-- The draw of the standalone script used as the concrete counterexample for C1:
one asset, unit mean and unit covariance, raw draw `[1]`. -/
noncomputable def badSample : MCSample := mcScriptDraw [1] [[1]] [1]

lemma badSample_ret : badSample.ret = (252 : ℝ) := by
  rw [badSample, mcScriptDraw_ret]
  norm_num [portfolioReturnQ, dotQ, normalizeWeights]

lemma badSample_vol : badSample.vol = Real.sqrt 252 := by
  rw [badSample, mcScriptDraw_vol, portfolioStdDev]
  have hq : ((quadForm [[1]] (normalizeWeights [1]) : ℚ) : ℝ) = 1 := by
    norm_num [quadForm, matVec, dotQ, normalizeWeights]
  rw [hq, Real.sqrt_one, one_mul]

lemma sqrt252_ne_zero : Real.sqrt 252 ≠ 0 :=
  ne_of_gt (Real.sqrt_pos.mpr (by norm_num))

/-- C1 counterexample: the module-level loop of `Monte_Carlo_simulation.py`
(line 66) records Sharpe = return / volatility with no risk-free adjustment, so
at one asset with unit mean and unit covariance the recorded Sharpe differs
from the claimed `(return - 0.02) / volatility`. -/
theorem C1_counterexample :
    badSample.sharpe ≠ some ((badSample.ret - (((1 : ℚ)/50 : ℚ) : ℝ)) / badSample.vol) := by
  have hv : badSample.vol ≠ 0 := by rw [badSample_vol]; exact sqrt252_ne_zero
  have hsh : badSample.sharpe = some (badSample.ret / badSample.vol) :=
    mcScriptDraw_sharpe_of_vol_ne [1] [[1]] [1] hv
  rw [hsh, badSample_ret, badSample_vol]
  intro h
  have h2 := Option.some.inj h
  rw [div_eq_div_iff sqrt252_ne_zero sqrt252_ne_zero] at h2
  have h3 := mul_right_cancel₀ sqrt252_ne_zero h2
  have : ((1 : ℚ)/50 : ℚ) ≠ 0 := by norm_num
  push_cast at h3
  linarith

/-- C1 (amended): for every draw, both simulation loops record
return = (mean vector dot weights) x 252 and
volatility = sqrt(weights transposed times covariance times weights) x sqrt(252);
`simulate_portfolios` records Sharpe = (return - risk_free_rate) / volatility
(default risk-free rate 0.02), while the standalone script of
`Monte_Carlo_simulation.py` records Sharpe = return / volatility with no
risk-free adjustment. -/
theorem C1_sample_metrics (mean : List ℚ) (cov : List (List ℚ)) (rfr : ℚ)
    (raw : ℕ → List ℚ) (K i : ℕ) (hi : i < K) :
    ∃ s t, (simulate_portfolios mean cov rfr raw K).get? i = some s ∧
      (mcScriptRun mean cov raw K).get? i = some t ∧
      s.ret = ((dotQ mean (normalizeWeights (raw i)) * 252 : ℚ) : ℝ) ∧
      s.vol = Real.sqrt ((quadForm cov (normalizeWeights (raw i)) : ℚ) : ℝ) * Real.sqrt 252 ∧
      (s.vol ≠ 0 → s.sharpe = some ((s.ret - ((rfr : ℚ) : ℝ)) / s.vol)) ∧
      t.ret = s.ret ∧ t.vol = s.vol ∧
      (t.vol ≠ 0 → t.sharpe = some (t.ret / t.vol)) := by
  refine ⟨mcDraw mean cov rfr (raw i), mcScriptDraw mean cov (raw i),
    simulate_portfolios_get mean cov rfr raw K i hi, mcScriptRun_get mean cov raw K i hi,
    rfl, rfl, ?_, rfl, rfl, ?_⟩
  · exact mcDraw_sharpe_of_vol_ne mean cov rfr (raw i)
  · exact mcScriptDraw_sharpe_of_vol_ne mean cov (raw i)

theorem C1_sample_metrics_witness :
    ∃ s t, (simulate_portfolios [1] [[1]] (1/50) (fun _ => [1]) 1).get? 0 = some s ∧
      (mcScriptRun [1] [[1]] (fun _ => [1]) 1).get? 0 = some t ∧
      s.ret = ((dotQ [1] (normalizeWeights [1]) * 252 : ℚ) : ℝ) ∧
      s.vol = Real.sqrt ((quadForm [[1]] (normalizeWeights [1]) : ℚ) : ℝ) * Real.sqrt 252 ∧
      (s.vol ≠ 0 → s.sharpe = some ((s.ret - (((1 : ℚ)/50 : ℚ) : ℝ)) / s.vol)) ∧
      t.ret = s.ret ∧ t.vol = s.vol ∧
      (t.vol ≠ 0 → t.sharpe = some (t.ret / t.vol)) := by
  simpa using C1_sample_metrics [1] [[1]] (1/50) (fun _ => [1]) 1 0 (by decide)

/-- C6: if a draw's volatility evaluates to zero, the simulation records that
sample's Sharpe ratio as the non-finite sentinel (embedded as `none`) instead
of raising for the whole run: the table still holds exactly K samples and
every draw, including the remaining K-1, is evaluated and stored. -/
theorem C6_degenerate_sentinel (mean : List ℚ) (cov : List (List ℚ)) (rfr : ℚ)
    (raw : ℕ → List ℚ) (K i : ℕ) (hi : i < K)
    (hvol : portfolioStdDev cov (normalizeWeights (raw i)) = 0) :
    (simulate_portfolios mean cov rfr raw K).length = K ∧
    (∃ s, (simulate_portfolios mean cov rfr raw K).get? i = some s ∧ s.sharpe = none) ∧
    (∀ j, j < K → (simulate_portfolios mean cov rfr raw K).get? j =
      some (mcDraw mean cov rfr (raw j))) := by
  refine ⟨by simp [simulate_portfolios],
    ⟨mcDraw mean cov rfr (raw i), simulate_portfolios_get mean cov rfr raw K i hi, ?_⟩,
    fun j hj => simulate_portfolios_get mean cov rfr raw K j hj⟩
  rw [mcDraw_sharpe]
  simp only [sharpeWithRfr]
  rw [if_pos hvol]

theorem C6_degenerate_sentinel_witness :
    (simulate_portfolios [1] [[0]] (1/50) (fun _ => [1]) 2).length = 2 ∧
    (∃ s, (simulate_portfolios [1] [[0]] (1/50) (fun _ => [1]) 2).get? 0 = some s ∧
      s.sharpe = none) ∧
    (∀ j, j < 2 → (simulate_portfolios [1] [[0]] (1/50) (fun _ => [1]) 2).get? j =
      some (mcDraw [1] [[0]] (1/50) [1])) := by
  exact C6_degenerate_sentinel [1] [[0]] (1/50) (fun _ => [1]) 2 0 (by decide)
    (by norm_num [portfolioStdDev, quadForm, matVec, dotQ, normalizeWeights, Real.sqrt_zero])

lemma get?_map_eq {α β : Type} (f : α → β) (l : List α) (i : ℕ) :
    (l.map f).get? i = (l.get? i).map f := by
  induction l generalizing i with
  | nil => simp [List.get?]
  | cons a t ih => cases i with
    | zero => simp [List.get?]
    | succ n => simp only [List.map_cons, List.get?]; exact ih n

/-- Embedding of `results_frame['sharpe'].idxmax()`
(`portfolio_optimization.py` line 109, `Monte_Carlo_simulation.py` line 76):
pandas `Series.idxmax` skips missing (NaN) entries, returns the first row label
attaining the maximum, and the subsequent `iloc` fetches that row. The
embedding returns the position together with the maximum value, or `none` when
every entry is missing. -/
def idxmaxO {α : Type} [LinearOrder α] : List (Option α) → Option (ℕ × α)
  | [] => none
  | none :: xs =>
    match idxmaxO xs with
    | none => none
    | some p => some (p.1 + 1, p.2)
  | some v :: xs =>
    match idxmaxO xs with
    | none => some (0, v)
    | some p => if p.2 ≤ v then some (0, v) else some (p.1 + 1, p.2)

/-- Embedding of `results_frame['stdev'].idxmin()`
(`portfolio_optimization.py` line 110, `Monte_Carlo_simulation.py` line 79):
first position attaining the minimum of the column, with the minimum value. -/
def idxminL {α : Type} [LinearOrder α] : List α → Option (ℕ × α)
  | [] => none
  | v :: xs =>
    match idxminL xs with
    | none => some (0, v)
    | some p => if v ≤ p.2 then some (0, v) else some (p.1 + 1, p.2)

lemma idxmaxO_none {α : Type} [LinearOrder α] :
    ∀ (xs : List (Option α)), idxmaxO xs = none →
      ∀ i w, xs.get? i ≠ some (some w) := by
  intro xs
  induction xs with
  | nil =>
    intro _ i w hc
    simp [List.get?] at hc
  | cons x t ih =>
    intro h i w hc
    cases x with
    | none =>
      cases h2 : idxmaxO t with
      | none =>
        cases i with
        | zero => simp [List.get?] at hc
        | succ n => exact ih h2 n w hc
      | some p =>
        simp only [idxmaxO, h2] at h
        exact absurd h (by simp)
    | some v =>
      cases h2 : idxmaxO t with
      | none =>
        simp only [idxmaxO, h2] at h
        exact absurd h (by simp)
      | some p =>
        simp only [idxmaxO, h2] at h
        split at h <;> simp at h

lemma idxmaxO_get {α : Type} [LinearOrder α] :
    ∀ (xs : List (Option α)) (j : ℕ) (m : α), idxmaxO xs = some (j, m) →
      xs.get? j = some (some m) := by
  intro xs
  induction xs with
  | nil => intro j m h; simp [idxmaxO] at h
  | cons x t ih =>
    intro j m h
    cases x with
    | none =>
      cases h2 : idxmaxO t with
      | none =>
        simp only [idxmaxO, h2] at h
        exact absurd h (by simp)
      | some p =>
        obtain ⟨j', m'⟩ := p
        simp only [idxmaxO, h2, Option.some.injEq, Prod.mk.injEq] at h
        obtain ⟨rfl, rfl⟩ := h
        exact ih j' m' h2
    | some v =>
      cases h2 : idxmaxO t with
      | none =>
        simp only [idxmaxO, h2, Option.some.injEq, Prod.mk.injEq] at h
        obtain ⟨rfl, rfl⟩ := h
        rfl
      | some p =>
        obtain ⟨j', m'⟩ := p
        simp only [idxmaxO, h2] at h
        split at h
        · simp only [Option.some.injEq, Prod.mk.injEq] at h
          obtain ⟨rfl, rfl⟩ := h
          rfl
        · simp only [Option.some.injEq, Prod.mk.injEq] at h
          obtain ⟨rfl, rfl⟩ := h
          exact ih j' m' h2

lemma idxmaxO_le {α : Type} [LinearOrder α] :
    ∀ (xs : List (Option α)) (j : ℕ) (m : α), idxmaxO xs = some (j, m) →
      ∀ i w, xs.get? i = some (some w) → w ≤ m := by
  intro xs
  induction xs with
  | nil => intro j m h; simp [idxmaxO] at h
  | cons x t ih =>
    intro j m h i w hc
    cases x with
    | none =>
      cases h2 : idxmaxO t with
      | none =>
        simp only [idxmaxO, h2] at h
        exact absurd h (by simp)
      | some p =>
        obtain ⟨j', m'⟩ := p
        simp only [idxmaxO, h2, Option.some.injEq, Prod.mk.injEq] at h
        obtain ⟨rfl, rfl⟩ := h
        cases i with
        | zero => simp [List.get?] at hc
        | succ n => exact ih j' m' h2 n w hc
    | some v =>
      cases h2 : idxmaxO t with
      | none =>
        simp only [idxmaxO, h2, Option.some.injEq, Prod.mk.injEq] at h
        obtain ⟨rfl, rfl⟩ := h
        cases i with
        | zero =>
          simp only [List.get?, Option.some.injEq] at hc
          exact le_of_eq hc.symm
        | succ n => exact absurd hc (idxmaxO_none t h2 n w)
      | some p =>
        obtain ⟨j', m'⟩ := p
        simp only [idxmaxO, h2] at h
        split at h
        · rename_i hle
          simp only [Option.some.injEq, Prod.mk.injEq] at h
          obtain ⟨rfl, rfl⟩ := h
          cases i with
          | zero =>
            simp only [List.get?, Option.some.injEq] at hc
            exact le_of_eq hc.symm
          | succ n => exact le_trans (ih j' m' h2 n w hc) hle
        · rename_i hlt
          simp only [Option.some.injEq, Prod.mk.injEq] at h
          obtain ⟨rfl, rfl⟩ := h
          cases i with
          | zero =>
            simp only [List.get?, Option.some.injEq] at hc
            rw [← hc]
            exact le_of_lt (lt_of_not_le hlt)
          | succ n => exact ih j' m' h2 n w hc

lemma idxmaxO_first {α : Type} [LinearOrder α] :
    ∀ (xs : List (Option α)) (j : ℕ) (m : α), idxmaxO xs = some (j, m) →
      ∀ i, i < j → ∀ w, xs.get? i = some (some w) → w < m := by
  intro xs
  induction xs with
  | nil => intro j m h; simp [idxmaxO] at h
  | cons x t ih =>
    intro j m h i hij w hc
    cases x with
    | none =>
      cases h2 : idxmaxO t with
      | none =>
        simp only [idxmaxO, h2] at h
        exact absurd h (by simp)
      | some p =>
        obtain ⟨j', m'⟩ := p
        simp only [idxmaxO, h2, Option.some.injEq, Prod.mk.injEq] at h
        obtain ⟨rfl, rfl⟩ := h
        cases i with
        | zero => simp [List.get?] at hc
        | succ n => exact ih j' m' h2 n (Nat.lt_of_succ_lt_succ hij) w hc
    | some v =>
      cases h2 : idxmaxO t with
      | none =>
        simp only [idxmaxO, h2, Option.some.injEq, Prod.mk.injEq] at h
        obtain ⟨rfl, rfl⟩ := h
        exact absurd hij (Nat.not_lt_zero i)
      | some p =>
        obtain ⟨j', m'⟩ := p
        simp only [idxmaxO, h2] at h
        split at h
        · simp only [Option.some.injEq, Prod.mk.injEq] at h
          obtain ⟨rfl, rfl⟩ := h
          exact absurd hij (Nat.not_lt_zero i)
        · rename_i hlt
          simp only [Option.some.injEq, Prod.mk.injEq] at h
          obtain ⟨rfl, rfl⟩ := h
          cases i with
          | zero =>
            simp only [List.get?, Option.some.injEq] at hc
            rw [← hc]
            exact lt_of_not_le hlt
          | succ n => exact ih j' m' h2 n (Nat.lt_of_succ_lt_succ hij) w hc

lemma idxmaxO_isSome {α : Type} [LinearOrder α] (xs : List (Option α)) (n : ℕ) (w : α)
    (h : xs.get? n = some (some w)) : ∃ j m, idxmaxO xs = some (j, m) := by
  cases h2 : idxmaxO xs with
  | none => exact absurd h (idxmaxO_none xs h2 n w)
  | some p =>
    obtain ⟨a, b⟩ := p
    exact ⟨a, b, rfl⟩

lemma idxminL_isSome {α : Type} [LinearOrder α] :
    ∀ (xs : List α), xs ≠ [] → ∃ j m, idxminL xs = some (j, m) := by
  intro xs
  cases xs with
  | nil => intro h; exact absurd rfl h
  | cons v t =>
    intro _
    cases h2 : idxminL t with
    | none => exact ⟨0, v, by simp only [idxminL, h2]⟩
    | some p =>
      by_cases hle : v ≤ p.2
      · exact ⟨0, v, by simp only [idxminL, h2]; rw [if_pos hle]⟩
      · exact ⟨p.1 + 1, p.2, by simp only [idxminL, h2]; rw [if_neg hle]⟩

lemma idxminL_get {α : Type} [LinearOrder α] :
    ∀ (xs : List α) (j : ℕ) (m : α), idxminL xs = some (j, m) →
      xs.get? j = some m := by
  intro xs
  induction xs with
  | nil => intro j m h; simp [idxminL] at h
  | cons v t ih =>
    intro j m h
    cases h2 : idxminL t with
    | none =>
      simp only [idxminL, h2, Option.some.injEq, Prod.mk.injEq] at h
      obtain ⟨rfl, rfl⟩ := h
      rfl
    | some p =>
      obtain ⟨j', m'⟩ := p
      simp only [idxminL, h2] at h
      split at h
      · simp only [Option.some.injEq, Prod.mk.injEq] at h
        obtain ⟨rfl, rfl⟩ := h
        rfl
      · simp only [Option.some.injEq, Prod.mk.injEq] at h
        obtain ⟨rfl, rfl⟩ := h
        exact ih j' m' h2

lemma idxminL_le {α : Type} [LinearOrder α] :
    ∀ (xs : List α) (j : ℕ) (m : α), idxminL xs = some (j, m) →
      ∀ i w, xs.get? i = some w → m ≤ w := by
  intro xs
  induction xs with
  | nil => intro j m h; simp [idxminL] at h
  | cons v t ih =>
    intro j m h i w hc
    cases h2 : idxminL t with
    | none =>
      simp only [idxminL, h2, Option.some.injEq, Prod.mk.injEq] at h
      obtain ⟨rfl, rfl⟩ := h
      cases i with
      | zero =>
        simp only [List.get?, Option.some.injEq] at hc
        exact le_of_eq hc
      | succ n =>
        exfalso
        have : t = [] := by
          cases t with
          | nil => rfl
          | cons a u =>
            obtain ⟨j0, m0, hj0⟩ := idxminL_isSome (a :: u) (by simp)
            rw [hj0] at h2
            exact absurd h2 (by simp)
        rw [this] at hc
        simp [List.get?] at hc
    | some p =>
      obtain ⟨j', m'⟩ := p
      simp only [idxminL, h2] at h
      split at h
      · rename_i hle
        simp only [Option.some.injEq, Prod.mk.injEq] at h
        obtain ⟨rfl, rfl⟩ := h
        cases i with
        | zero =>
          simp only [List.get?, Option.some.injEq] at hc
          exact le_of_eq hc
        | succ n => exact le_trans hle (ih j' m' h2 n w hc)
      · rename_i hlt
        simp only [Option.some.injEq, Prod.mk.injEq] at h
        obtain ⟨rfl, rfl⟩ := h
        cases i with
        | zero =>
          simp only [List.get?, Option.some.injEq] at hc
          rw [← hc]
          exact le_of_lt (lt_of_not_le hlt)
        | succ n => exact ih j' m' h2 n w hc

lemma idxminL_first {α : Type} [LinearOrder α] :
    ∀ (xs : List α) (j : ℕ) (m : α), idxminL xs = some (j, m) →
      ∀ i, i < j → ∀ w, xs.get? i = some w → m < w := by
  intro xs
  induction xs with
  | nil => intro j m h; simp [idxminL] at h
  | cons v t ih =>
    intro j m h i hij w hc
    cases h2 : idxminL t with
    | none =>
      simp only [idxminL, h2, Option.some.injEq, Prod.mk.injEq] at h
      obtain ⟨rfl, rfl⟩ := h
      exact absurd hij (Nat.not_lt_zero i)
    | some p =>
      obtain ⟨j', m'⟩ := p
      simp only [idxminL, h2] at h
      split at h
      · simp only [Option.some.injEq, Prod.mk.injEq] at h
        obtain ⟨rfl, rfl⟩ := h
        exact absurd hij (Nat.not_lt_zero i)
      · rename_i hlt
        simp only [Option.some.injEq, Prod.mk.injEq] at h
        obtain ⟨rfl, rfl⟩ := h
        cases i with
        | zero =>
          simp only [List.get?, Option.some.injEq] at hc
          rw [← hc]
          exact lt_of_not_le hlt
        | succ n => exact ih j' m' h2 n (Nat.lt_of_succ_lt_succ hij) w hc

/-- `identify_optimal_portfolios(results_frame)`
(`portfolio_optimization.py` lines 99-111): the row fetched by
`iloc[idxmax('sharpe')]` and the row fetched by `iloc[idxmin('stdev')]`. -/
noncomputable def identify_optimal_portfolios (table : List MCSample) :
    Option MCSample × Option MCSample :=
  ((idxmaxO (table.map MCSample.sharpe)).bind (fun p => table.get? p.1),
   (idxminL (table.map MCSample.vol)).bind (fun p => table.get? p.1))

/-- C3: on a non-empty sample table with at least one defined Sharpe entry, the
frontier selector returns the sample with the maximum Sharpe ratio among
entries whose Sharpe is defined (missing/NaN entries are skipped), and the
sample with the minimum volatility; in both queries ties are resolved to the
earliest draw (every strictly earlier entry is strictly worse). -/
theorem C3_frontier_selector (table : List MCSample) (hne : table ≠ [])
    (hdef : ∃ n s, table.get? n = some s ∧ s.sharpe ≠ none) :
    (∃ j s m, table.get? j = some s ∧
      (identify_optimal_portfolios table).1 = some s ∧ s.sharpe = some m ∧
      (∀ i t w, table.get? i = some t → t.sharpe = some w → w ≤ m) ∧
      (∀ i t w, i < j → table.get? i = some t → t.sharpe = some w → w < m)) ∧
    (∃ j s, table.get? j = some s ∧
      (identify_optimal_portfolios table).2 = some s ∧
      (∀ i t, table.get? i = some t → s.vol ≤ t.vol) ∧
      (∀ i t, i < j → table.get? i = some t → s.vol < t.vol)) := by
  constructor
  · obtain ⟨n, s0, hn, hs0⟩ := hdef
    obtain ⟨w0, hw0⟩ := Option.ne_none_iff_exists'.mp hs0
    have hmapn : (table.map MCSample.sharpe).get? n = some (some w0) := by
      rw [get?_map_eq, hn, Option.map_some']
      rw [hw0]
    obtain ⟨j, m, hjm⟩ := idxmaxO_isSome _ n w0 hmapn
    have hget := idxmaxO_get _ j m hjm
    rw [get?_map_eq] at hget
    obtain ⟨s1, hs1, hs1sharpe⟩ := Option.map_eq_some'.mp hget
    refine ⟨j, s1, m, hs1, ?_, hs1sharpe, ?_, ?_⟩
    · simp only [identify_optimal_portfolios, hjm, Option.bind_some]
      exact hs1
    · intro i t w hi hw
      have hmi : (table.map MCSample.sharpe).get? i = some (some w) := by
        rw [get?_map_eq, hi, Option.map_some', hw]
      exact idxmaxO_le _ j m hjm i w hmi
    · intro i t w hij hi hw
      have hmi : (table.map MCSample.sharpe).get? i = some (some w) := by
        rw [get?_map_eq, hi, Option.map_some', hw]
      exact idxmaxO_first _ j m hjm i hij w hmi
  · have hmne : table.map MCSample.vol ≠ [] := by
      intro h
      exact hne (List.map_eq_nil_iff.mp h)
    obtain ⟨j, m, hjm⟩ := idxminL_isSome _ hmne
    have hget := idxminL_get _ j m hjm
    rw [get?_map_eq] at hget
    obtain ⟨s2, hs2, hs2vol⟩ := Option.map_eq_some'.mp hget
    refine ⟨j, s2, hs2, ?_, ?_, ?_⟩
    · simp only [identify_optimal_portfolios, hjm, Option.bind_some]
      exact hs2
    · intro i t hi
      have hmi : (table.map MCSample.vol).get? i = some t.vol := by
        rw [get?_map_eq, hi, Option.map_some']
      rw [hs2vol]
      exact idxminL_le _ j m hjm i t.vol hmi
    · intro i t hij hi
      have hmi : (table.map MCSample.vol).get? i = some t.vol := by
        rw [get?_map_eq, hi, Option.map_some']
      rw [hs2vol]
      exact idxminL_first _ j m hjm i hij t.vol hmi

theorem C3_frontier_selector_witness :
    (∃ j s m,
      ([⟨0, 2, some 1, [1]⟩, ⟨0, 1, some 3, [1]⟩] : List MCSample).get? j = some s ∧
      (identify_optimal_portfolios
        [⟨0, 2, some 1, [1]⟩, ⟨0, 1, some 3, [1]⟩]).1 = some s ∧ s.sharpe = some m ∧
      (∀ i t w, ([⟨0, 2, some 1, [1]⟩, ⟨0, 1, some 3, [1]⟩] : List MCSample).get? i = some t →
        t.sharpe = some w → w ≤ m) ∧
      (∀ i t w, i < j →
        ([⟨0, 2, some 1, [1]⟩, ⟨0, 1, some 3, [1]⟩] : List MCSample).get? i = some t →
        t.sharpe = some w → w < m)) ∧
    (∃ j s,
      ([⟨0, 2, some 1, [1]⟩, ⟨0, 1, some 3, [1]⟩] : List MCSample).get? j = some s ∧
      (identify_optimal_portfolios
        [⟨0, 2, some 1, [1]⟩, ⟨0, 1, some 3, [1]⟩]).2 = some s ∧
      (∀ i t, ([⟨0, 2, some 1, [1]⟩, ⟨0, 1, some 3, [1]⟩] : List MCSample).get? i = some t →
        s.vol ≤ t.vol) ∧
      (∀ i t, i < j →
        ([⟨0, 2, some 1, [1]⟩, ⟨0, 1, some 3, [1]⟩] : List MCSample).get? i = some t →
        s.vol < t.vol)) :=
  C3_frontier_selector [⟨0, 2, some 1, [1]⟩, ⟨0, 1, some 3, [1]⟩] (by simp)
    ⟨0, ⟨0, 2, some 1, [1]⟩, rfl, by simp⟩

/-- Auxiliary for `pct_change`: entry t of the result is the fractional change
`(p_t - p_prev) / p_prev` against the previous observation. -/
def pctAux (prev : ℚ) : List ℚ → List (Option ℚ)
  | [] => []
  | p :: rest => some ((p - prev) / prev) :: pctAux p rest

/-- `data.pct_change()` on one price column (`portfolio_optimization.py` line
162, `Monte_Carlo_simulation.py` line 37): pandas keeps the first row as a
missing value (NaN) and fills row t with the fractional change
`(p_t - p_(t-1)) / p_(t-1)`; the shape is preserved, no row is dropped. -/
def pct_change : List ℚ → List (Option ℚ)
  | [] => []
  | p :: rest => none :: pctAux p rest

/-- Auxiliary for `specRatioReturns`: the ratio `p_t / p_prev` per entry. -/
def ratioAux (prev : ℚ) : List ℚ → List ℚ
  | [] => []
  | p :: rest => p / prev :: ratioAux p rest

/-- The return matrix exactly as the claim words it: the period-over-period
ratios of consecutive observations, with the first date dropped. This
definition follows the claim text, for comparison with `pct_change`, which
follows the source. -/
def specRatioReturns : List ℚ → List ℚ
  | [] => []
  | p :: rest => ratioAux p rest

lemma pctAux_length (prev : ℚ) (l : List ℚ) : (pctAux prev l).length = l.length := by
  induction l generalizing prev with
  | nil => rfl
  | cons p rest ih => simp [pctAux, ih]

lemma pct_change_length (prices : List ℚ) :
    (pct_change prices).length = prices.length := by
  cases prices with
  | nil => rfl
  | cons p rest => simp [pct_change, pctAux_length]

lemma pctAux_get (l : List ℚ) : ∀ (prev : ℚ) (i : ℕ) (a b : ℚ),
    (prev :: l).get? i = some a → l.get? i = some b →
    (pctAux prev l).get? i = some (some ((b - a) / a)) := by
  induction l with
  | nil =>
    intro prev i a b _ hb
    simp [List.get?] at hb
  | cons q t ih =>
    intro prev i a b ha hb
    cases i with
    | zero =>
      simp only [List.get?, Option.some.injEq] at ha hb
      subst ha
      subst hb
      rfl
    | succ n => exact ih q n a b ha hb

/-- C5 counterexample: on the two-observation price column `[1, 2]`, the source
computes `pct_change`, whose result has the same length as the input (the first
row is kept as a missing value) and whose entry is the fractional change `1`,
not the claimed shape-minus-first-row list of ratios `[2]`. -/
theorem C5_counterexample :
    (pct_change [(1 : ℚ), 2]).length ≠ ([(1 : ℚ), 2].length - 1) ∧
    pct_change [(1 : ℚ), 2] ≠ (specRatioReturns [(1 : ℚ), 2]).map some := by
  constructor
  · rw [pct_change_length]
    norm_num
  · simp [pct_change, pctAux, specRatioReturns, ratioAux]

/-- C5 (amended): for every non-empty price column, `pct_change` produces a
column of the same shape as the input whose first entry is missing (NaN) and
whose entry t+1 is the fractional change `(p_(t+1) - p_t) / p_t` of consecutive
observations; no row is dropped. -/
theorem C5_pct_change (prices : List ℚ) (hne : prices ≠ []) :
    (pct_change prices).length = prices.length ∧
    (pct_change prices).get? 0 = some none ∧
    (∀ i a b, prices.get? i = some a → prices.get? (i + 1) = some b →
      (pct_change prices).get? (i + 1) = some (some ((b - a) / a))) := by
  cases prices with
  | nil => exact absurd rfl hne
  | cons p rest =>
    refine ⟨pct_change_length _, rfl, ?_⟩
    intro i a b ha hb
    exact pctAux_get rest p i a b ha hb

theorem C5_pct_change_witness :
    (pct_change [(1 : ℚ), 2]).length = 2 ∧
    (pct_change [(1 : ℚ), 2]).get? 1 = some (some 1) := by
  have h := C5_pct_change [(1 : ℚ), 2] (by simp)
  refine ⟨by simpa using h.1, ?_⟩
  have h2 := h.2.2 0 1 2 rfl rfl
  norm_num at h2
  exact h2

/-- pandas column mean with its default skipna behaviour: the arithmetic mean
of the non-missing entries, or missing (NaN) when every entry is missing
(`returns.mean()`, `portfolio_optimization.py` line 163,
`Monte_Carlo_simulation.py` line 40). -/
def nanmean (xs : List (Option ℚ)) : Option ℚ :=
  let vs := xs.filterMap id
  if vs.length = 0 then none else some (vs.sum / vs.length)

/-- The source's return-estimation path for one price column:
`returns = data.pct_change()` followed by `returns.mean()`. Neither pandas call
raises on short input, so the embedded run always succeeds; the `Except` layer
records Python exception behaviour (an `Except.error` would be a raised
exception, and no raise exists in this code path). -/
def returnEstimatorRun (prices : List ℚ) : Except String (Option ℚ) :=
  Except.ok (nanmean (pct_change prices))

/-- C7 counterexample: on a one-row price matrix the source completes normally
and produces a missing (NaN) mean; it does not raise any error, and in
particular no `InsufficientDataError` exists anywhere in the code. -/
theorem C7_counterexample :
    returnEstimatorRun [(1 : ℚ)] = Except.ok none ∧
    returnEstimatorRun [(1 : ℚ)] ≠ Except.error ("InsufficientDataError") := by
  refine ⟨rfl, ?_⟩
  simp [returnEstimatorRun]

/-- C7 (amended): the code performs no insufficient-data check: return
estimation always completes (never raises), and on a price column with at most
one observation it yields a missing (NaN) mean instead of an error. -/
theorem C7_no_insufficient_check (prices : List ℚ) :
    (∃ v, returnEstimatorRun prices = Except.ok v) ∧
    (prices.length ≤ 1 → returnEstimatorRun prices = Except.ok none) := by
  refine ⟨⟨nanmean (pct_change prices), rfl⟩, ?_⟩
  intro hlen
  cases prices with
  | nil => rfl
  | cons p rest =>
    cases rest with
    | nil => rfl
    | cons q t =>
      exfalso
      simp only [List.length_cons] at hlen
      omega

theorem C7_no_insufficient_check_witness :
    returnEstimatorRun ([] : List ℚ) = Except.ok none :=
  (C7_no_insufficient_check []).2 (by decide)

/-- Does a price column contain a missing value (NaN)? -/
def colHasMissing (col : List (Option ℚ)) : Bool := col.any (fun x => x.isNone)

/-- The cleanup step of `fetch_price_data` (`portfolio_optimization.py` line
39): `adj_close_df.dropna(axis=1)` drops every asset column containing at
least one missing value, keeping the remaining columns in order. -/
def fetch_price_data (cols : List (List (Option ℚ))) : List (List (Option ℚ)) :=
  cols.filter (fun c => ! colHasMissing c)

/-- The price handling of `Monte_Carlo_simulation.py` (lines 33-37): the
downloaded frame goes straight to `pct_change` with no missing-value drop;
every column is retained. -/
def scriptPriceData (cols : List (List (Option ℚ))) : List (List (Option ℚ)) := cols

/-- C8 counterexample: on a matrix with one clean column and one column with a
missing value, `fetch_price_data` (used by `portfolio_optimization.py`) drops
the second column while the standalone script keeps it, so the missing-value
policy is not the same single policy in every code path. -/
theorem C8_counterexample :
    fetch_price_data [[some 1, some 2], [none, some 3]] ≠
      scriptPriceData [[some 1, some 2], [none, some 3]] := by
  simp [fetch_price_data, scriptPriceData, colHasMissing]

/-- C8 (amended): the two code paths implement different missing-value
policies. `fetch_price_data` drops exactly the columns containing a missing
value (every retained column is clean), the standalone script retains every
column unchanged, and the two paths agree exactly on inputs with no missing
value at all. -/
theorem C8_policy (cols : List (List (Option ℚ))) :
    (∀ c ∈ fetch_price_data cols, colHasMissing c = false) ∧
    scriptPriceData cols = cols ∧
    (fetch_price_data cols = scriptPriceData cols ↔
      ∀ c ∈ cols, colHasMissing c = false) := by
  refine ⟨?_, rfl, ?_⟩
  · intro c hc
    have h := List.of_mem_filter hc
    simpa using h
  · constructor
    · intro h c hc
      have h2 := List.filter_eq_self.mp h c hc
      simpa using h2
    · intro h
      apply List.filter_eq_self.mpr
      intro c hc
      simp [h c hc]

theorem C8_policy_witness :
    fetch_price_data [[some (1 : ℚ), some 2]] = scriptPriceData [[some (1 : ℚ), some 2]] :=
  (C8_policy [[some (1 : ℚ), some 2]]).2.2.mpr (by simp [colHasMissing])

/-- Modelled from the spec: the Constrained Optimizer of spec section 4.5 is
absent from the repository source (no gradient-based constrained solver exists
in any source file; only the Monte Carlo simulator is implemented). This
structure records the raw outcome reported by the solver the spec describes:
candidate weights, success flag and diagnostic message. -/
structure SolverOutput where
  weights : List ℚ
  success : Bool
  message : String

/-- Modelled from the spec: the optimization result surfaced to callers, a
weight vector with its convergence flag. -/
structure OptimizationResult where
  weights : List ℚ
  converged : Bool

/-- Budget residual check: the weights sum to 1 within the spec's 1e-6
tolerance. -/
def sumTolOK (w : List ℚ) : Bool := decide (|w.sum - 1| ≤ 1/1000000)

/-- Bound check: every component within its configured bound, within the
spec's 1e-9 tolerance. -/
def boundsTolOK (w : List ℚ) (bounds : List (ℚ × ℚ)) : Bool :=
  (w.zip bounds).all (fun p => decide (p.2.1 - 1/1000000000 ≤ p.1) &&
    decide (p.1 ≤ p.2.2 + 1/1000000000))

/-- Modelled from the spec (section 4.5 and section 8): the core returns a
converged `OptimizationResult` only when the solver reports successful
termination and the candidate satisfies the budget and bound constraints
within tolerance; otherwise an `OptimizationFailedError` carrying the solver's
diagnostic message is surfaced and no best-effort weight vector is returned. -/
def constrainedOptimizer (out : SolverOutput) (bounds : List (ℚ × ℚ)) :
    Except String OptimizationResult :=
  if out.success && sumTolOK out.weights && boundsTolOK out.weights bounds then
    Except.ok { weights := out.weights, converged := true }
  else
    Except.error ("OptimizationFailedError: " ++ out.message)

/-- C4: every weight vector returned by the optimizer with convergence flag
true sums to 1 within 1e-6 and has every component within its configured bound
within 1e-9; when the solver does not converge, an `OptimizationFailedError`
is surfaced and no weight vector is returned. -/
theorem C4_optimizer_contract (out : SolverOutput) (bounds : List (ℚ × ℚ)) :
    (∀ res, constrainedOptimizer out bounds = Except.ok res →
      res.converged = true ∧ res.weights = out.weights ∧
      |res.weights.sum - 1| ≤ 1/1000000 ∧
      (∀ p ∈ res.weights.zip bounds,
        p.2.1 - 1/1000000000 ≤ p.1 ∧ p.1 ≤ p.2.2 + 1/1000000000)) ∧
    (out.success = false →
      constrainedOptimizer out bounds =
        Except.error ("OptimizationFailedError: " ++ out.message)) := by
  constructor
  · intro res hres
    unfold constrainedOptimizer at hres
    split at hres
    · rename_i hcond
      simp only [Bool.and_eq_true] at hcond
      obtain ⟨⟨hsucc, hsum⟩, hbnd⟩ := hcond
      rw [Except.ok.injEq] at hres
      subst hres
      refine ⟨rfl, rfl, ?_, ?_⟩
      · unfold sumTolOK at hsum
        exact of_decide_eq_true hsum
      · intro p hp
        unfold boundsTolOK at hbnd
        have h2 := List.all_eq_true.mp hbnd p hp
        simp only [Bool.and_eq_true, decide_eq_true_eq] at h2
        exact h2
    · exact absurd hres (by simp)
  · intro hfail
    unfold constrainedOptimizer
    rw [hfail]
    simp

theorem C4_optimizer_contract_witness :
    (({ weights := [1/2, 1/2], converged := true } : OptimizationResult).converged = true ∧
      ({ weights := [1/2, 1/2], converged := true } : OptimizationResult).weights = [1/2, 1/2] ∧
      |({ weights := [1/2, 1/2], converged := true } : OptimizationResult).weights.sum - 1| ≤
        1/1000000 ∧
      (∀ p ∈ ({ weights := [1/2, 1/2], converged := true } : OptimizationResult).weights.zip
          [((0 : ℚ), (1 : ℚ)), (0, 1)],
        p.2.1 - 1/1000000000 ≤ p.1 ∧ p.1 ≤ p.2.2 + 1/1000000000)) ∧
    constrainedOptimizer { weights := [], success := false, message := ("maxiter") } [] =
      Except.error ("OptimizationFailedError: " ++ "maxiter") := by
  constructor
  · exact (C4_optimizer_contract
      { weights := [1/2, 1/2], success := true, message := ("ok") } [(0, 1), (0, 1)]).1
      { weights := [1/2, 1/2], converged := true }
      (by norm_num [constrainedOptimizer, sumTolOK, boundsTolOK])
  · exact (C4_optimizer_contract
      { weights := [], success := false, message := ("maxiter") } []).2 rfl

end PortfolioOpt
